import Mathlib

/-!
Verification of the Homey procedural scene-animation engine: the piecewise
curve interpolation used by the day/night lighting model, the lighting
computation, and the camera-path controller.

The source is JavaScript/TypeScript acting on IEEE floats; we embed it over
`ℚ`, with JS `NaN` (arising from out-of-bounds array reads, which yield
`undefined`, and from `0/0`) modelled as `none : Option ℚ`.  JS arithmetic
propagates `NaN` through every operation, and `NaN === NaN` is `false`; both
behaviours are reflected in the `Option` plumbing below.
-/

namespace Homey

/-- JS array read `l[i]`: out-of-bounds (negative or past the end) yields
`undefined`, which any subsequent arithmetic turns into `NaN`; modelled as
`none`. -/
def getJS (l : List ℚ) (i : ℤ) : Option ℚ :=
  if 0 ≤ i then l.get? i.toNat else none

/-- JS division as used in `interpolate`: the only vanishing denominator the
program produces is `0 / 0`, which is `NaN` in JS; modelled as `none`. -/
def jsDiv (a b : ℚ) : Option ℚ :=
  if b = 0 then none else some (a / b)

/-- The source's `lerp`: `(1 - t) * start + t * end`, with `NaN`
propagation through every operand. -/
def lerp (s e t : Option ℚ) : Option ℚ :=
  s.bind fun s0 => e.bind fun e0 => t.map fun t0 => (1 - t0) * s0 + t0 * e0

/-- The source's `rescale`.  `srcMin === srcMax` is false in JS when either
side is `NaN`, so the zero-width short-circuit fires only when both are real
and equal; otherwise the division `(val - srcMin) / (srcMax - srcMin)`
propagates `NaN`. -/
def rescale (val : ℚ) (srcMin srcMax : Option ℚ) (dstMin dstMax : ℚ) : Option ℚ :=
  srcMin.bind fun a => srcMax.map fun b =>
    if a = b then dstMin else (val - a) / (b - a) * (dstMax - dstMin) + dstMin

/-- The source's `count = scale.length - 1` (an integer, possibly `0` for a
one-element curve or `-1` for an empty one). -/
def countOf (scale : List ℚ) : ℤ :=
  (scale.length : ℤ) - 1

/-- The source's `low = Math.max(Math.floor(count * value), 0)` — clamped from below only. -/
def lowIdx (scale : List ℚ) (value : ℚ) : ℤ :=
  max ⌊(countOf scale : ℚ) * value⌋ 0

/-- The source's `high = Math.min(Math.ceil(count * value), count)` — clamped from above only. -/
def highIdx (scale : List ℚ) (value : ℚ) : ℤ :=
  min ⌈(countOf scale : ℚ) * value⌉ (countOf scale)

/-- The `interpolate` function of `DynamicLighting` (identical copies in
`part_000` and `AuthPage.tsx`):
`lerp(scale[low], scale[high], rescale(value, [low/count, high/count], [0,1]))`. -/
def interpolate (scale : List ℚ) (value : ℚ) : Option ℚ :=
  lerp (getJS scale (lowIdx scale value)) (getJS scale (highIdx scale value))
    (rescale value (jsDiv ((lowIdx scale value : ℤ) : ℚ) ((countOf scale : ℤ) : ℚ))
      (jsDiv ((highIdx scale value : ℤ) : ℚ) ((countOf scale : ℤ) : ℚ)) 0 1)

/-- The authored sun-brightness control sequence (23 keyframes). -/
def sunScale : List ℚ :=
  [0, 0, 0, 0, 0.3, 0.3, 0.3, 0.3, 0.5, 0.5, 0.5, 0.5, 0.5, 0.5, 0.5,
   0.3, 0.3, 0.3, 0.3, 0.3, 0, 0, 0]

/-- The authored moon-brightness control sequence (23 keyframes). -/
def moonScale : List ℚ :=
  [0.4, 0.4, 0.4, 0.4, 0.4, 0, 0, 0, 0, 0, 0, 0, 0, 0, 0, 0, 0, 0, 0,
   0.1, 0.2, 0.4, 0.4]

/-- The authored sky/ambient-brightness control sequence (9 keyframes). -/
def skyScale : List ℚ :=
  [0.05, 0.05, 0.2, 0.2, 0.2, 0.2, 0.2, 0.2, 0.05]

/-- A 3D vector, as `THREE.Vector3` restricted to the operations the
controller uses. -/
structure Vec3 where
  x : ℚ
  y : ℚ
  z : ℚ
deriving DecidableEq

/-- Embedding of `THREE.Vector3.lerp(v, alpha)`: each component moves by
`(v - this) * alpha`. -/
def lerpV (a b : Vec3) (t : ℚ) : Vec3 :=
  ⟨a.x + (b.x - a.x) * t, a.y + (b.y - a.y) * t, a.z + (b.z - a.z) * t⟩

/-- Squared Euclidean distance between two vectors. -/
def distSq (a b : Vec3) : ℚ :=
  (a.x - b.x) ^ 2 + (a.y - b.y) ^ 2 + (a.z - b.z) ^ 2

/-- The externally supplied UI mode (`mode === 'login'` in the source). -/
inductive Mode where
  | login
  | signup
deriving DecidableEq

/-- Which branch of the controller's per-frame conditionals is active. -/
inductive BranchState where
  | welcome
  | loginFocus
  | signupFocus
  | authenticated
deriving DecidableEq

/-- The branch the `useFrame` conditionals select, mirroring the nesting
`if (!isAuthenticated) { if (showWelcomeText) ... else if (mode === 'login')
... else ... }`. -/
def resolveState (isAuthenticated showWelcomeText : Bool) (mode : Mode) : BranchState :=
  if !isAuthenticated then
    if showWelcomeText then BranchState.welcome
    else if mode = Mode.login then BranchState.loginFocus
    else BranchState.signupFocus
  else BranchState.authenticated

/-- The controller's mutable refs: target/current position and look-at, and
the accumulated time `timeRef`. -/
structure CamState where
  targetPosition : Vec3
  currentPosition : Vec3
  targetLookAt : Vec3
  currentLookAt : Vec3
  time : ℚ
deriving DecidableEq

/-- Initial ref values of `CameraController`. -/
def initCamState : CamState :=
  ⟨⟨0, 3, 12⟩, ⟨0, 3, 12⟩, ⟨0, 1, 0⟩, ⟨0, 1, 0⟩, 0⟩

/-- The `useEffect` on `[mode, isAuthenticated]`: when authenticated it points
the targets at the fixed interior position/look-at. -/
def applyAuthEffect (isAuthenticated : Bool) (s : CamState) : CamState :=
  if isAuthenticated then
    { s with targetPosition := ⟨0, 1.5, 1⟩, targetLookAt := ⟨0, 1, -1⟩ }
  else s

/-- The damping rate `1.2` from `delta * 1.2` in the source. -/
def dampingRate : ℚ := 1.2

/-- Login-branch orbit target: camera on the right side.  `sin` and `cos` are
the (pure) trigonometric functions of the host, kept abstract. -/
def loginTargetPos (sin cos : ℚ → ℚ) (time : ℚ) : Vec3 :=
  ⟨6 + sin (time * 0.15) * 2,
   3.5 + cos (time * 0.1) * 0.3,
   8 + cos (time * 0.15) * 1.5⟩

/-- Signup-branch orbit target: camera on the left side. -/
def signupTargetPos (sin cos : ℚ → ℚ) (time : ℚ) : Vec3 :=
  ⟨-6 - sin (time * 0.15) * 2,
   3.5 + cos (time * 0.1) * 0.3,
   8 + cos (time * 0.15) * 1.5⟩

/-- Login-branch look-at: toward the house, offset for the form overlay. -/
def loginLookTarget : Vec3 := ⟨-0.5, 1.2, 0⟩

/-- Signup-branch look-at: the opposite offset. -/
def signupLookTarget : Vec3 := ⟨0.5, 1.2, 0⟩

/-- Welcome-branch fixed establishing shot. -/
def welcomePos : Vec3 := ⟨0, 3, 12⟩

/-- Welcome-branch fixed look-at. -/
def welcomeLookTarget : Vec3 := ⟨0, 1, 0⟩

/-- Target pair (position, look-at) written by the `useFrame` conditionals;
when authenticated the previous refs are left untouched. -/
def frameTarget (sin cos : ℚ → ℚ) (mode : Mode) (isAuthenticated showWelcomeText : Bool)
    (time : ℚ) (s : CamState) : Vec3 × Vec3 :=
  if !isAuthenticated then
    if showWelcomeText then (welcomePos, welcomeLookTarget)
    else if mode = Mode.login then (loginTargetPos sin cos time, loginLookTarget)
    else (signupTargetPos sin cos time, signupLookTarget)
  else (s.targetPosition, s.targetLookAt)

/-- One `useFrame` tick: accumulate time, recompute the targets, then move the
current position/look-at toward them by `lerp(_, delta * 1.2)`. -/
def useFrameStep (sin cos : ℚ → ℚ) (mode : Mode) (isAuthenticated showWelcomeText : Bool)
    (delta : ℚ) (s : CamState) : CamState :=
  { targetPosition := (frameTarget sin cos mode isAuthenticated showWelcomeText (s.time + delta) s).1,
    targetLookAt := (frameTarget sin cos mode isAuthenticated showWelcomeText (s.time + delta) s).2,
    currentPosition := lerpV s.currentPosition
      (frameTarget sin cos mode isAuthenticated showWelcomeText (s.time + delta) s).1
      (delta * dampingRate),
    currentLookAt := lerpV s.currentLookAt
      (frameTarget sin cos mode isAuthenticated showWelcomeText (s.time + delta) s).2
      (delta * dampingRate),
    time := s.time + delta }

/-- The damped update of lines 760-761 on its own, for a fixed target. -/
def dampStep (delta : ℚ) (target current : Vec3) : Vec3 :=
  lerpV current target (delta * dampingRate)

/-- Iterated per-frame damped update with a constant target. -/
def dampIter (delta : ℚ) (target : Vec3) : ℕ → Vec3 → Vec3
  | 0, current => current
  | n + 1, current => dampIter delta target n (dampStep delta target current)

/-- Everything `DynamicLighting` derives from `timeOfDay` (colors are produced
by the external `chroma` scales, kept abstract as pure functions into an
arbitrary color type). -/
structure LightingState (Color : Type) where
  skyBrightness : Option ℚ
  sunBrightness : Option ℚ
  moonBrightness : Option ℚ
  sunColor : Color
  moonColor : Color
  rotationDeg : ℚ

/-- The `DynamicLighting` computation: three curve evaluations, two color
lookups, and the orientation angle `timeOfDay * 360 - 180` (in degrees;
the source converts it to radians with `degToRad`). -/
def computeLighting {Color : Type} (sunColors moonColors : ℚ → Color)
    (timeOfDay : ℚ) : LightingState Color :=
  { skyBrightness := interpolate skyScale timeOfDay,
    sunBrightness := interpolate sunScale timeOfDay,
    moonBrightness := interpolate moonScale timeOfDay,
    sunColor := sunColors timeOfDay,
    moonColor := moonColors timeOfDay,
    rotationDeg := timeOfDay * 360 - 180 }

theorem ceil_as_floor (a : ℚ) : ⌈a⌉ = -⌊-a⌋ := by
  rw [Int.floor_neg, neg_neg]

theorem getJS_some {l : List ℚ} {i : ℤ} (h0 : 0 ≤ i) (h1 : i < (l.length : ℤ)) :
    getJS l i = some (l.getD i.toNat 0) := by
  have h2 : i.toNat < l.length := by omega
  rw [getJS, if_pos h0, List.getD_eq_getElem _ _ h2, List.get?_eq_getElem?,
    List.getElem?_eq_getElem h2]

theorem getJS_neg {l : List ℚ} {i : ℤ} (h : i < 0) : getJS l i = none := by
  rw [getJS, if_neg (by omega)]

theorem getJS_big {l : List ℚ} {i : ℤ} (h : (l.length : ℤ) ≤ i) : getJS l i = none := by
  have h0 : 0 ≤ i := by omega
  have h2 : l.length ≤ i.toNat := by omega
  rw [getJS, if_pos h0, List.get?_eq_none.mpr h2]

theorem lerp_mid_none (s t : Option ℚ) : lerp s none t = none := by
  cases s <;> rfl

theorem lerp_left_none (e t : Option ℚ) : lerp none e t = none := rfl

/-- If `high < 0` the JS read `scale[high]` is `undefined` and the whole
interpolation is `NaN`. -/
theorem interp_none_of_high_neg {scale : List ℚ} {v : ℚ}
    (h : highIdx scale v < 0) : interpolate scale v = none := by
  rw [interpolate, getJS_neg h, lerp_mid_none]

/-- If `low ≥ length` the JS read `scale[low]` is `undefined` and the whole
interpolation is `NaN`. -/
theorem interp_none_of_low_big {scale : List ℚ} {v : ℚ}
    (h : (scale.length : ℤ) ≤ lowIdx scale v) : interpolate scale v = none := by
  rw [interpolate, getJS_big h, lerp_left_none]

/-- When `low = high = k` (both in range, `count ≥ 1`), the zero-width guard in
`rescale` fires and the interpolation returns `scale[k]`. -/
theorem interp_single {scale : List ℚ} {v : ℚ} {k c : ℤ}
    (hc : countOf scale = c) (hc1 : 1 ≤ c)
    (hl : lowIdx scale v = k) (hh : highIdx scale v = k)
    (hk0 : 0 ≤ k) (hkc : k ≤ c) :
    interpolate scale v = some (scale.getD k.toNat 0) := by
  have hlen : k < (scale.length : ℤ) := by
    have := hc; rw [countOf] at this; omega
  have hcq : ((c : ℤ) : ℚ) ≠ 0 := by
    exact_mod_cast (by omega : c ≠ 0)
  rw [interpolate, hl, hh, hc, getJS_some hk0 hlen, jsDiv, if_neg hcq]
  simp only [rescale, lerp, Option.bind_some, Option.map_some, Option.some_bind,
    Option.bind, Option.map, if_pos rfl]
  norm_num

/-- When `low = k` and `high = k + 1` (both in range), the interpolation is the
convex combination of `scale[k]` and `scale[k+1]` with weight
`count * v - k`. -/
theorem interp_pair {scale : List ℚ} {v : ℚ} {k c : ℤ} {a b : ℚ}
    (hc : countOf scale = c) (hk0 : 0 ≤ k) (hkc : k + 1 ≤ c)
    (hlo : (k : ℚ) < (c : ℚ) * v) (hhi : (c : ℚ) * v < (k : ℚ) + 1)
    (ha : scale.getD k.toNat 0 = a) (hb : scale.getD (k + 1).toNat 0 = b) :
    interpolate scale v
      = some ((1 - ((c : ℚ) * v - (k : ℚ))) * a + ((c : ℚ) * v - (k : ℚ)) * b) := by
  have hc1 : 1 ≤ c := by omega
  have hcq : ((c : ℤ) : ℚ) ≠ 0 := by exact_mod_cast (by omega : c ≠ 0)
  have hcq0 : (0 : ℚ) < (c : ℚ) := by exact_mod_cast (by omega : 0 < c)
  have hfl : ⌊(c : ℚ) * v⌋ = k := by
    rw [Int.floor_eq_iff]
    exact ⟨le_of_lt hlo, hhi⟩
  have hce : ⌈(c : ℚ) * v⌉ = k + 1 := by
    rw [Int.ceil_eq_iff]
    constructor
    · push_cast; linarith
    · push_cast; linarith
  have hl : lowIdx scale v = k := by
    rw [lowIdx, hc, hfl]; omega
  have hh : highIdx scale v = k + 1 := by
    rw [highIdx, hc, hce]; omega
  have hlen : k + 1 < (scale.length : ℤ) := by
    have := hc; rw [countOf] at this; omega
  rw [interpolate, hl, hh, hc, getJS_some hk0 (by omega), getJS_some (by omega) hlen,
    ha, hb, jsDiv, jsDiv, if_neg hcq, if_neg hcq]
  have hne : ((k : ℚ)) / (c : ℚ) ≠ ((k : ℚ) + 1) / (c : ℚ) := by
    intro h
    field_simp at h
  simp only [rescale, lerp, Option.bind, Option.map]
  push_cast
  rw [if_neg hne]
  congr 1
  have hstep : (v - (k : ℚ) / (c : ℚ)) / (((k : ℚ) + 1) / (c : ℚ) - (k : ℚ) / (c : ℚ))
      * (1 - 0) + 0 = (c : ℚ) * v - (k : ℚ) := by
    field_simp
    ring
  rw [hstep]

/-- Evaluation at `0` returns the first control point (needs at least 2 points). -/
theorem interp_at_zero {scale : List ℚ} (h2 : 2 ≤ scale.length) :
    interpolate scale 0 = some (scale.getD 0 0) := by
  have h := @interp_single scale 0 0 ((scale.length : ℤ) - 1)
    rfl (by omega) ?_ ?_ le_rfl (by omega)
  · simpa using h
  · rw [lowIdx, countOf]
    norm_num
  · rw [highIdx, countOf]
    rw [mul_zero, Int.ceil_zero]
    omega

/-- Evaluation at `1` returns the last control point (needs at least 2 points). -/
theorem interp_at_one {scale : List ℚ} (h2 : 2 ≤ scale.length) :
    interpolate scale 1 = some (scale.getD (scale.length - 1) 0) := by
  have h := @interp_single scale 1 ((scale.length : ℤ) - 1) ((scale.length : ℤ) - 1)
    rfl (by omega) ?_ ?_ (by omega) le_rfl
  · have hn : ((scale.length : ℤ) - 1).toNat = scale.length - 1 := by omega
    rwa [hn] at h
  · rw [lowIdx, countOf, mul_one, Int.floor_intCast]
    omega
  · rw [highIdx, countOf, mul_one, Int.ceil_intCast]
    omega

theorem jsDiv_zero (a : ℚ) : jsDiv a 0 = none := by
  rw [jsDiv, if_pos rfl]

theorem lerp_right_none (s e : Option ℚ) : lerp s e none = none := by
  cases s <;> cases e <;> rfl

/-- A one-element curve always evaluates to `NaN`: `count = 0`, so the source
computes `low/count = 0/0 = NaN`, the `srcMin === srcMax` guard fails on
`NaN`, and the division `(val - NaN)/(NaN - NaN)` poisons the result. -/
theorem interp_singleton (x v : ℚ) : interpolate [x] v = none := by
  have hc : ((countOf [x] : ℤ) : ℚ) = 0 := by norm_num [countOf]
  rw [interpolate, hc, jsDiv_zero, jsDiv_zero]
  rw [show rescale v none none 0 1 = none from rfl, lerp_right_none]

/-- C8 counterexample: with the single-element control sequence `[5]` the
claim demands `evaluate(0) = 5`, but the code returns `NaN` (`0/0` in
`rescale`), so the claim fails at `N = 1`. -/
theorem curve_boundary_cex : interpolate [(5 : ℚ)] 0 ≠ some 5 := by
  rw [interp_singleton]
  simp

/-- C8 (amended to `N ≥ 2`): for every control sequence with at least 2
control points, `evaluate(0)` returns exactly the first control point and
`evaluate(1)` returns exactly the last control point. -/
theorem curve_boundary (scale : List ℚ) (h2 : 2 ≤ scale.length) :
    interpolate scale 0 = some (scale.getD 0 0) ∧
    interpolate scale 1 = some (scale.getD (scale.length - 1) 0) :=
  ⟨interp_at_zero h2, interp_at_one h2⟩

/-- Witness for C8: on the curve `[3, 7]`, `evaluate(0) = 3` and
`evaluate(1) = 7`. -/
theorem curve_boundary_witness :
    interpolate [(3 : ℚ), 7] 0 = some 3 ∧ interpolate [(3 : ℚ), 7] 1 = some 7 := by
  have h := curve_boundary [(3 : ℚ), 7] (by norm_num)
  simpa using h

/-- C1 counterexample: on the two-point curve `[0, 1]`, `evaluate(-1)` reads
`scale[-1]` (the `high` index is not clamped from below) and `evaluate(2)`
reads `scale[2]` (the `low` index is not clamped from above); both produce
`NaN`, so neither equals the corresponding boundary evaluation. -/
theorem curve_clamp_cex :
    interpolate [(0 : ℚ), 1] (-1) ≠ interpolate [(0 : ℚ), 1] 0 ∧
    interpolate [(0 : ℚ), 1] 2 ≠ interpolate [(0 : ℚ), 1] 1 := by
  have hn1 : interpolate [(0 : ℚ), 1] (-1) = none := by
    apply interp_none_of_high_neg
    rw [highIdx, countOf]
    norm_num
    rw [ceil_as_floor]
    norm_num
  have hn2 : interpolate [(0 : ℚ), 1] 2 = none := by
    apply interp_none_of_low_big
    rw [lowIdx, countOf]
    norm_num
  have h0 := @interp_at_zero [(0 : ℚ), 1] (by norm_num)
  have h1 := @interp_at_one [(0 : ℚ), 1] (by norm_num)
  rw [hn1, hn2, h0, h1]
  simp

/-- C1 (amended): clamping only extends one sub-interval width past the
domain.  For `-1/count < v < 0` the evaluation agrees with `evaluate(0)`, and
for `1 < v < 1 + 1/count` it agrees with `evaluate(1)`; but for
`v ≤ -1/count` or `v ≥ 1 + 1/count` the evaluation reads outside the control
sequence and yields `NaN` (`none`) — in particular `evaluate(-1) ≠ evaluate(0)`
and `evaluate(2) ≠ evaluate(1)`. -/
theorem curve_clamp (scale : List ℚ) (v : ℚ) (h2 : 2 ≤ scale.length) :
    (-1 / ((countOf scale : ℤ) : ℚ) < v → v < 0 →
      interpolate scale v = interpolate scale 0) ∧
    (1 < v → v < 1 + 1 / ((countOf scale : ℤ) : ℚ) →
      interpolate scale v = interpolate scale 1) ∧
    (v ≤ -1 / ((countOf scale : ℤ) : ℚ) → interpolate scale v = none) ∧
    (1 + 1 / ((countOf scale : ℤ) : ℚ) ≤ v → interpolate scale v = none) := by
  have hc1 : 1 ≤ countOf scale := by rw [countOf]; omega
  have hcq : (0 : ℚ) < ((countOf scale : ℤ) : ℚ) := by
    exact_mod_cast (by omega : 0 < countOf scale)
  refine ⟨?_, ?_, ?_, ?_⟩
  · intro hlo hhi
    have h1 : (-1 : ℚ) < ((countOf scale : ℤ) : ℚ) * v := by
      have := (div_lt_iff₀ hcq).mp hlo
      linarith
    have h0 : ((countOf scale : ℤ) : ℚ) * v < 0 := mul_neg_of_pos_of_neg hcq hhi
    have hfl : ⌊((countOf scale : ℤ) : ℚ) * v⌋ = -1 := by
      rw [Int.floor_eq_iff]
      constructor
      · push_cast; linarith
      · push_cast; linarith
    have hce : ⌈((countOf scale : ℤ) : ℚ) * v⌉ = 0 := by
      rw [Int.ceil_eq_iff]
      constructor
      · push_cast; linarith
      · push_cast; linarith
    have hsingle := interp_single (v := v) (k := 0) (c := countOf scale) rfl hc1
      (by rw [lowIdx, hfl]; omega) (by rw [highIdx, hce]; omega) le_rfl (by omega)
    rw [hsingle, interp_at_zero h2]
    norm_num
  · intro hlo hhi
    have h1 : ((countOf scale : ℤ) : ℚ) < ((countOf scale : ℤ) : ℚ) * v := by
      nlinarith
    have h0 : ((countOf scale : ℤ) : ℚ) * v < ((countOf scale : ℤ) : ℚ) + 1 := by
      have hne : ((countOf scale : ℤ) : ℚ) ≠ 0 := ne_of_gt hcq
      have hmul : ((countOf scale : ℤ) : ℚ) * v
          < ((countOf scale : ℤ) : ℚ) * (1 + 1 / ((countOf scale : ℤ) : ℚ)) :=
        (mul_lt_mul_left hcq).mpr hhi
      have heq : ((countOf scale : ℤ) : ℚ) * (1 + 1 / ((countOf scale : ℤ) : ℚ))
          = ((countOf scale : ℤ) : ℚ) + 1 := by
        field_simp
      linarith
    have hfl : ⌊((countOf scale : ℤ) : ℚ) * v⌋ = countOf scale := by
      rw [Int.floor_eq_iff]
      exact ⟨le_of_lt h1, by linarith⟩
    have hce : ⌈((countOf scale : ℤ) : ℚ) * v⌉ = countOf scale + 1 := by
      rw [Int.ceil_eq_iff]
      constructor
      · push_cast; linarith
      · push_cast; linarith
    have hsingle := interp_single (v := v) (k := countOf scale) (c := countOf scale)
      rfl hc1 (by rw [lowIdx, hfl]; omega) (by rw [highIdx, hce]; omega)
      (by omega) le_rfl
    rw [hsingle, interp_at_one h2]
    have hn : (countOf scale).toNat = scale.length - 1 := by rw [countOf]; omega
    rw [hn]
  · intro hv
    apply interp_none_of_high_neg
    have h1 : ((countOf scale : ℤ) : ℚ) * v ≤ -1 := by
      have := (le_div_iff₀ hcq).mp hv
      linarith
    have : ⌈((countOf scale : ℤ) : ℚ) * v⌉ ≤ -1 := by
      rw [Int.ceil_le]
      push_cast
      linarith
    rw [highIdx]
    omega
  · intro hv
    apply interp_none_of_low_big
    have h1 : ((countOf scale : ℤ) : ℚ) + 1 ≤ ((countOf scale : ℤ) : ℚ) * v := by
      have hmul : ((countOf scale : ℤ) : ℚ) * (1 + 1 / ((countOf scale : ℤ) : ℚ))
          ≤ ((countOf scale : ℤ) : ℚ) * v :=
        mul_le_mul_of_nonneg_left hv (le_of_lt hcq)
      have heq : ((countOf scale : ℤ) : ℚ) * (1 + 1 / ((countOf scale : ℤ) : ℚ))
          = ((countOf scale : ℤ) : ℚ) + 1 := by
        field_simp
      linarith
    have : countOf scale + 1 ≤ ⌊((countOf scale : ℤ) : ℚ) * v⌋ := by
      rw [Int.le_floor]
      push_cast
      linarith
    rw [lowIdx, countOf] at *
    omega

/-- Witness for C1: on the curve `[0, 1]` (`count = 1`), `evaluate(-1/2)`
agrees with `evaluate(0)` and `evaluate(-2)` is `NaN`. -/
theorem curve_clamp_witness :
    interpolate [(0 : ℚ), 1] (-1/2) = interpolate [(0 : ℚ), 1] 0 ∧
    interpolate [(0 : ℚ), 1] (-2) = none := by
  constructor
  · exact (curve_clamp [(0 : ℚ), 1] (-1/2) (by norm_num)).1
      (by norm_num [countOf]) (by norm_num)
  · exact (curve_clamp [(0 : ℚ), 1] (-2) (by norm_num)).2.2.1
      (by norm_num [countOf])

/-- C4 counterexample: with `N = 1` the zero-width case does not return
`control[low]` but `NaN` (`0/0` defeats the `srcMin === srcMax` guard), and
with `N = 2` the input `2` reads `scale[2]`, outside the control sequence. -/
theorem curve_total_cex :
    interpolate [(5 : ℚ)] 0 = none ∧ interpolate [(0 : ℚ), 1] 2 = none := by
  constructor
  · exact interp_singleton 5 0
  · apply interp_none_of_low_big
    rw [lowIdx, countOf]
    norm_num

/-- C4 (amended to `N ≥ 2` and inputs in `[0, 1]`): evaluation is total — it
returns a real number, never dividing by zero — and whenever the bracketing
sub-interval has zero width (`low = high`) it returns `control[low]`. -/
theorem curve_total (scale : List ℚ) (v : ℚ) (h2 : 2 ≤ scale.length)
    (hv0 : 0 ≤ v) (hv1 : v ≤ 1) :
    (interpolate scale v).isSome = true ∧
    (lowIdx scale v = highIdx scale v →
      interpolate scale v = some (scale.getD (lowIdx scale v).toNat 0)) := by
  have hc1 : 1 ≤ countOf scale := by rw [countOf]; omega
  have hcq : (0 : ℚ) < ((countOf scale : ℤ) : ℚ) := by
    exact_mod_cast (by omega : 0 < countOf scale)
  have hm0 : (0 : ℚ) ≤ ((countOf scale : ℤ) : ℚ) * v := mul_nonneg (le_of_lt hcq) hv0
  have hmc : ((countOf scale : ℤ) : ℚ) * v ≤ ((countOf scale : ℤ) : ℚ) := by
    nlinarith
  have hk0 : 0 ≤ ⌊((countOf scale : ℤ) : ℚ) * v⌋ := Int.floor_nonneg.mpr hm0
  have hkc : ⌊((countOf scale : ℤ) : ℚ) * v⌋ ≤ countOf scale := by
    have h := Int.floor_le_floor hmc
    rwa [Int.floor_intCast] at h
  by_cases hint : ((countOf scale : ℤ) : ℚ) * v = (⌊((countOf scale : ℤ) : ℚ) * v⌋ : ℚ)
  · have hce : ⌈((countOf scale : ℤ) : ℚ) * v⌉ = ⌊((countOf scale : ℤ) : ℚ) * v⌋ := by
      rw [hint, Int.ceil_intCast, Int.floor_intCast]
    have hlow : lowIdx scale v = ⌊((countOf scale : ℤ) : ℚ) * v⌋ := by
      rw [lowIdx]; omega
    have hhigh : highIdx scale v = ⌊((countOf scale : ℤ) : ℚ) * v⌋ := by
      rw [highIdx, hce]; omega
    have hsingle := interp_single rfl hc1 hlow hhigh hk0 hkc
    constructor
    · rw [hsingle]; rfl
    · intro _
      rw [hlow]
      exact hsingle
  · have hlt : (⌊((countOf scale : ℤ) : ℚ) * v⌋ : ℚ) < ((countOf scale : ℤ) : ℚ) * v :=
      lt_of_le_of_ne (Int.floor_le _) (fun h => hint h.symm)
    have hup : ((countOf scale : ℤ) : ℚ) * v < (⌊((countOf scale : ℤ) : ℚ) * v⌋ : ℚ) + 1 :=
      Int.lt_floor_add_one _
    have hkc1 : ⌊((countOf scale : ℤ) : ℚ) * v⌋ + 1 ≤ countOf scale := by
      have : (⌊((countOf scale : ℤ) : ℚ) * v⌋ : ℚ) < ((countOf scale : ℤ) : ℚ) :=
        lt_of_lt_of_le hlt hmc
      have := (by exact_mod_cast this : ⌊((countOf scale : ℤ) : ℚ) * v⌋ < countOf scale)
      omega
    have hpair := interp_pair rfl hk0 hkc1 hlt (by linarith) rfl rfl
    constructor
    · rw [hpair]; rfl
    · intro heq
      exfalso
      have hce : ⌈((countOf scale : ℤ) : ℚ) * v⌉ = ⌊((countOf scale : ℤ) : ℚ) * v⌋ + 1 := by
        rw [Int.ceil_eq_iff]
        constructor
        · push_cast; linarith
        · push_cast; linarith
      rw [lowIdx, highIdx, hce] at heq
      omega

/-- Witness for C4: on the curve `[0, 1]` the evaluation at `1/2` is defined. -/
theorem curve_total_witness : (interpolate [(0 : ℚ), 1] (1/2)).isSome = true :=
  (curve_total [(0 : ℚ), 1] (1/2) (by norm_num) (by norm_num) (by norm_num)).1

/-- C7: for every `timeOfDay` in `[0, 1]` the sun curve and the moon curve do
not simultaneously reach their maxima `0.5` and `0.4`: the sun is at `0.5`
only for `22·t ∈ [8, 14]`, where every moon keyframe is `0`. -/
theorem sun_moon_never_both_peak (t : ℚ) (ht0 : 0 ≤ t) (ht1 : t ≤ 1) :
    ¬(interpolate sunScale t = some 0.5 ∧ interpolate moonScale t = some 0.4) := by
  rintro ⟨hs, hm⟩
  have hsc : countOf sunScale = 22 := by rfl
  have hmc : countOf moonScale = 22 := by rfl
  have hm0 : (0 : ℚ) ≤ ((22 : ℤ) : ℚ) * t := by push_cast; linarith
  have hmc22 : ((22 : ℤ) : ℚ) * t ≤ ((22 : ℤ) : ℚ) := by push_cast; linarith
  have hk0 : 0 ≤ ⌊((22 : ℤ) : ℚ) * t⌋ := Int.floor_nonneg.mpr hm0
  have hk22 : ⌊((22 : ℤ) : ℚ) * t⌋ ≤ 22 := by
    have h := Int.floor_le_floor hmc22
    rwa [Int.floor_intCast] at h
  by_cases hint : ((22 : ℤ) : ℚ) * t = (⌊((22 : ℤ) : ℚ) * t⌋ : ℚ)
  · -- `22·t` is an exact keyframe index
    have hce : ⌈((22 : ℤ) : ℚ) * t⌉ = ⌊((22 : ℤ) : ℚ) * t⌋ := by
      rw [hint, Int.ceil_intCast, Int.floor_intCast]
    have hsun := @interp_single sunScale t ⌊((22 : ℤ) : ℚ) * t⌋ 22 hsc (by omega)
      (by rw [lowIdx, hsc]; omega) (by rw [highIdx, hsc, hce]; omega) hk0 hk22
    have hmoon := @interp_single moonScale t ⌊((22 : ℤ) : ℚ) * t⌋ 22 hmc (by omega)
      (by rw [lowIdx, hmc]; omega) (by rw [highIdx, hmc, hce]; omega) hk0 hk22
    rw [hsun] at hs
    rw [hmoon] at hm
    simp only [Option.some.injEq] at hs hm
    set k := ⌊((22 : ℤ) : ℚ) * t⌋ with hkdef
    clear_value k
    interval_cases k <;> simp [sunScale, moonScale] at hs hm <;> norm_num at hs hm
  · -- `22·t` lies strictly inside a sub-interval
    have hlt : (⌊((22 : ℤ) : ℚ) * t⌋ : ℚ) < ((22 : ℤ) : ℚ) * t :=
      lt_of_le_of_ne (Int.floor_le _) (fun h => hint h.symm)
    have hup : ((22 : ℤ) : ℚ) * t < (⌊((22 : ℤ) : ℚ) * t⌋ : ℚ) + 1 :=
      Int.lt_floor_add_one _
    have hk21 : ⌊((22 : ℤ) : ℚ) * t⌋ + 1 ≤ 22 := by
      have h : (⌊((22 : ℤ) : ℚ) * t⌋ : ℚ) < ((22 : ℤ) : ℚ) := lt_of_lt_of_le hlt hmc22
      have := (by exact_mod_cast h : ⌊((22 : ℤ) : ℚ) * t⌋ < 22)
      omega
    have hsun := @interp_pair sunScale t ⌊((22 : ℤ) : ℚ) * t⌋ 22 _ _ hsc hk0 hk21 hlt hup rfl rfl
    have hmoon := @interp_pair moonScale t ⌊((22 : ℤ) : ℚ) * t⌋ 22 _ _ hmc hk0 hk21 hlt hup rfl rfl
    rw [hsun] at hs
    rw [hmoon] at hm
    simp only [Option.some.injEq] at hs hm
    have hf0 : (0 : ℚ) < ((22 : ℤ) : ℚ) * t - (⌊((22 : ℤ) : ℚ) * t⌋ : ℚ) := by linarith
    have hf1 : ((22 : ℤ) : ℚ) * t - (⌊((22 : ℤ) : ℚ) * t⌋ : ℚ) < 1 := by linarith
    set f := ((22 : ℤ) : ℚ) * t - (⌊((22 : ℤ) : ℚ) * t⌋ : ℚ) with hfdef
    set k := ⌊((22 : ℤ) : ℚ) * t⌋ with hkdef
    clear_value f
    clear_value k
    interval_cases k <;> simp [sunScale, moonScale] at hs hm <;> norm_num at hs hm <;>
      linarith

/-- Witness for C7: at `timeOfDay = 1/2` (noon) the two curves do not both
peak. -/
theorem sun_moon_never_both_peak_witness :
    ¬(interpolate sunScale (1/2) = some 0.5 ∧ interpolate moonScale (1/2) = some 0.4) :=
  sun_moon_never_both_peak (1/2) (by norm_num) (by norm_num)

theorem distSq_nonneg (a b : Vec3) : 0 ≤ distSq a b := by
  rw [distSq]
  positivity

theorem distSq_eq_zero_iff (a b : Vec3) : distSq a b = 0 ↔ a = b := by
  constructor
  · intro h
    rw [distSq] at h
    have hx : a.x = b.x := by
      nlinarith [sq_nonneg (a.x - b.x), sq_nonneg (a.y - b.y), sq_nonneg (a.z - b.z)]
    have hy : a.y = b.y := by
      nlinarith [sq_nonneg (a.x - b.x), sq_nonneg (a.y - b.y), sq_nonneg (a.z - b.z)]
    have hz : a.z = b.z := by
      nlinarith [sq_nonneg (a.x - b.x), sq_nonneg (a.y - b.y), sq_nonneg (a.z - b.z)]
    cases a
    cases b
    simp_all
  · rintro rfl
    rw [distSq]
    ring

/-- One damped step scales the squared distance to the target by
`(1 - Δt · 1.2)²`. -/
theorem distSq_dampStep (delta : ℚ) (target current : Vec3) :
    distSq (dampStep delta target current) target
      = (1 - delta * dampingRate) ^ 2 * distSq current target := by
  simp only [dampStep, lerpV, distSq, dampingRate]
  ring

/-- Iterating the damped step scales the squared distance by
`(1 - Δt · 1.2)^(2n)`. -/
theorem dampIter_distSq (delta : ℚ) (target : Vec3) (n : ℕ) (current : Vec3) :
    distSq (dampIter delta target n current) target
      = (1 - delta * dampingRate) ^ (2 * n) * distSq current target := by
  induction n generalizing current with
  | zero => simp [dampIter]
  | succ n ih =>
    rw [dampIter, ih, distSq_dampStep, show 2 * (n + 1) = 2 * n + 2 by ring, pow_add]
    ring

/-- C3 counterexample: the per-frame update does not strictly decrease the
distance for every `Δt > 0` (at `Δt = 2` the squared distance grows from `1`
to `49/25`), and at `Δt = 1/60` the squared distance after 50 ticks from unit
initial distance is `(49/50)^100 ≈ 0.133`, far above `(10⁻³)²` — so the
distance is not below `1e-3` after 50 ticks. -/
theorem damped_convergence_cex :
    distSq ⟨1, 0, 0⟩ ⟨0, 0, 0⟩ < distSq (dampStep 2 ⟨0, 0, 0⟩ ⟨1, 0, 0⟩) ⟨0, 0, 0⟩ ∧
    (1/1000 : ℚ) ^ 2 < distSq (dampIter (1/60) ⟨0, 0, 0⟩ 50 ⟨1, 0, 0⟩) ⟨0, 0, 0⟩ := by
  constructor
  · rw [distSq_dampStep]
    norm_num [distSq, dampingRate]
  · rw [dampIter_distSq]
    norm_num [distSq, dampingRate]

/-- C3 (amended): the per-tick squared distance to a constant target strictly
decreases only for `0 < Δt < 5/3` (so that the lerp factor `Δt · 1.2` stays in
`(0, 2)`); at `Δt = 1/60` and dampingRate `1.2` each tick contracts the
squared distance by exactly `(49/50)²`, so after `n` ticks it is `(49/50)^2n`
of the initial squared distance (≈ 0.133 at `n = 50`, not below `(10⁻³)²`
for unit initial distance). -/
theorem damped_convergence :
    (∀ (delta : ℚ) (target current : Vec3), 0 < delta → delta < 5/3 →
      current ≠ target →
      distSq (dampStep delta target current) target < distSq current target) ∧
    (∀ (target current : Vec3) (n : ℕ),
      distSq (dampIter (1/60) target n current) target
        = (49/50) ^ (2 * n) * distSq current target) := by
  constructor
  · intro delta target current h0 h1 hne
    rw [distSq_dampStep]
    have hD : 0 < distSq current target :=
      lt_of_le_of_ne (distSq_nonneg _ _) (fun h => hne ((distSq_eq_zero_iff _ _).mp h.symm))
    have hsq : (1 - delta * dampingRate) ^ 2 < 1 := by
      rw [dampingRate]
      nlinarith
    nlinarith
  · intro target current n
    rw [dampIter_distSq]
    norm_num [dampingRate]

/-- Witness for C3: one damped tick at `Δt = 1` from unit distance strictly
decreases the squared distance, and the 50-tick factor identity at concrete
inputs. -/
theorem damped_convergence_witness :
    distSq (dampStep 1 ⟨0, 0, 0⟩ ⟨1, 0, 0⟩) ⟨0, 0, 0⟩ < distSq ⟨1, 0, 0⟩ ⟨0, 0, 0⟩ :=
  damped_convergence.1 1 ⟨0, 0, 0⟩ ⟨1, 0, 0⟩ (by norm_num) (by norm_num) (by simp)

/-- C2 counterexample: nothing clamps `Δt`.  With `Δt = 2` the lerp factor is
`2.4`, and a current position strictly before the target (`x = 0 < 1`) is
carried to `x = 12/5`, strictly past the target — overshoot. -/
theorem delta_clamp_cex :
    (dampStep 2 ⟨1, 0, 0⟩ ⟨0, 0, 0⟩).x = 12/5 ∧ (1 : ℚ) < 12/5 := by
  constructor
  · norm_num [dampStep, lerpV, dampingRate]
  · norm_num

/-- C2 (amended): the code applies no clamping at all to `Δt`: the factor fed
to the lerp is exactly `Δt · 1.2` for every `Δt`, and whenever `Δt > 5/6`
(factor > 1) the update overshoots past the target. -/
theorem delta_unclamped :
    (∀ (sin cos : ℚ → ℚ) (mode : Mode) (isAuth sw : Bool) (delta : ℚ) (s : CamState),
      (useFrameStep sin cos mode isAuth sw delta s).currentPosition
        = lerpV s.currentPosition
            (useFrameStep sin cos mode isAuth sw delta s).targetPosition
            (delta * dampingRate)) ∧
    (∀ (delta : ℚ) (target current : Vec3), 5/6 < delta → current.x < target.x →
      target.x < (lerpV current target (delta * dampingRate)).x) := by
  constructor
  · intro sin cos mode isAuth sw delta s
    rfl
  · intro delta target current hd hx
    simp only [lerpV, dampingRate]
    nlinarith

/-- Witness for C2: at `Δt = 1` the factor is `1.2` and the update from
`x = 0` toward target `x = 1` lands past the target. -/
theorem delta_unclamped_witness :
    (1 : ℚ) < (lerpV ⟨0, 0, 0⟩ ⟨1, 0, 0⟩ (1 * dampingRate)).x :=
  delta_unclamped.2 1 ⟨1, 0, 0⟩ ⟨0, 0, 0⟩ (by norm_num) (by norm_num)

/-- C5: when `isAuthenticated` is true the controller resolves to the
`authenticated` branch for every mode/welcome combination, and (after the
authentication effect has pointed the targets at the interior) the per-frame
update keeps the fixed interior target `(0, 1.5, 1)` and look-at
`(0, 1, -1)`. -/
theorem auth_priority (sin cos : ℚ → ℚ) (mode : Mode) (sw : Bool) (delta : ℚ)
    (s : CamState) :
    resolveState true sw mode = BranchState.authenticated ∧
    (useFrameStep sin cos mode true sw delta (applyAuthEffect true s)).targetPosition
      = ⟨0, 1.5, 1⟩ ∧
    (useFrameStep sin cos mode true sw delta (applyAuthEffect true s)).targetLookAt
      = ⟨0, 1, -1⟩ :=
  ⟨rfl, rfl, rfl⟩

/-- C6: at equal accumulated time the login and signup orbit targets are exact
mirrors — opposite `x`, identical `y` and `z` — and the look-at offsets have
opposite `x`. -/
theorem mirror_symmetry (sin cos : ℚ → ℚ) (t : ℚ) :
    (loginTargetPos sin cos t).x = -(signupTargetPos sin cos t).x ∧
    (loginTargetPos sin cos t).y = (signupTargetPos sin cos t).y ∧
    (loginTargetPos sin cos t).z = (signupTargetPos sin cos t).z ∧
    loginLookTarget.x = -signupLookTarget.x := by
  refine ⟨?_, rfl, rfl, ?_⟩
  · simp only [loginTargetPos, signupTargetPos]
    ring
  · norm_num [loginLookTarget, signupLookTarget]

/-- C10: with `isAuthenticated = true` a frame tick accumulates time and moves
the current position/look-at by the damped lerp toward the stored targets, but
never writes `targetPosition` or `targetLookAt`. -/
theorem auth_frame_effect (sin cos : ℚ → ℚ) (mode : Mode) (sw : Bool) (delta : ℚ)
    (s : CamState) :
    (useFrameStep sin cos mode true sw delta s).targetPosition = s.targetPosition ∧
    (useFrameStep sin cos mode true sw delta s).targetLookAt = s.targetLookAt ∧
    (useFrameStep sin cos mode true sw delta s).time = s.time + delta ∧
    (useFrameStep sin cos mode true sw delta s).currentPosition
      = lerpV s.currentPosition s.targetPosition (delta * dampingRate) ∧
    (useFrameStep sin cos mode true sw delta s).currentLookAt
      = lerpV s.currentLookAt s.targetLookAt (delta * dampingRate) :=
  ⟨rfl, rfl, rfl, rfl, rfl⟩

/-- C9: the lighting computation is a pure function of `timeOfDay` — two
evaluations at the same input are identical, each field is exactly the stated
curve/gradient evaluation, and the orientation angle is
`timeOfDay * 360 - 180` degrees. -/
theorem lighting_pure {Color : Type} (sunColors moonColors : ℚ → Color) (t : ℚ) :
    computeLighting sunColors moonColors t = computeLighting sunColors moonColors t ∧
    (computeLighting sunColors moonColors t).rotationDeg = t * 360 - 180 ∧
    (computeLighting sunColors moonColors t).sunBrightness = interpolate sunScale t ∧
    (computeLighting sunColors moonColors t).moonBrightness = interpolate moonScale t ∧
    (computeLighting sunColors moonColors t).skyBrightness = interpolate skyScale t ∧
    (computeLighting sunColors moonColors t).sunColor = sunColors t ∧
    (computeLighting sunColors moonColors t).moonColor = moonColors t :=
  ⟨rfl, rfl, rfl, rfl, rfl, rfl, rfl⟩

end Homey
